import Mathlib

/-!
Verification development for the download-verification core of the
printables_scraper repository (src/utils.py, src/main.py).

Modelling conventions:
* Time is discrete, in seconds (`Nat` ticks); `time.sleep(k)` advances the
  clock by `k`, a directory scan or a size probe is instantaneous and sees
  the filesystem state of its tick.
* The polled filesystem is an oracle `Env : Nat → DirObs`: at each tick it
  tells whether the download directory exists (`os.path.exists`), what
  `os.listdir` would return (a duplicate-free list of entry names), and the
  results of `os.path.getmtime` / `os.path.getsize` on full paths, where
  `none` models a raised `OSError`.
* Python strings are Lean `String`s; `str.lower` and the regex character
  classes are modelled at the ASCII level (all constants involved in the
  claims are ASCII).
* Machine floats returned by `time.time()` do not occur: the code only
  compares elapsed whole seconds against integer timeouts.
-/

namespace PrintablesScraper

/-- Model of `os.path.join dir f` for a POSIX directory path and an entry name. -/
def joinPath (dir f : String) : String := dir ++ "/" ++ f

/-- ASCII model of `str.lower()`. -/
def strToLower (s : String) : String := String.mk (s.data.map Char.toLower)

/-- Source `utils.py:60` — the tuple `partial_extensions` of in-progress download
suffixes excluded from candidacy. -/
def inProgressSuffixes : List String :=
  [".crdownload", ".part", ".tmp", ".torrent", ".download", ".inprogress"]

/-- Model of `f.lower().endswith(partial_extensions)` (`utils.py:76`). -/
def hasInProgressSuffix (f : String) : Bool :=
  inProgressSuffixes.any (fun e => e.data.isSuffixOf (strToLower f).data)

/-- What one polling tick observes about the download directory. -/
structure DirObs where
  dirExists : Bool
  listing : List String
  mtime : String → Option Nat
  size : String → Option Nat

/-- The polled filesystem over time. -/
abbrev Env := Nat → DirObs

/-- Source `utils.py:63` — `os.listdir(download_dir) if os.path.exists(download_dir)
else []`: a missing directory is read as an empty listing. -/
def effListing (st : DirObs) : List String :=
  if st.dirExists then st.listing else []

/-- Source `utils.py:63-77` — `current_files - initial_files`, then the in-progress
suffix filter: the `new_completed_files` list of one scan. -/
def newCompletedAt (st : DirObs) (init : List String) : List String :=
  ((effListing st).filter (fun f => !(decide (f ∈ init)))).filter
    (fun f => !(hasInProgressSuffix f))

/-- Source `utils.py:83-91` — the `(f_path, mtime)` candidate pairs; an entry whose
`getmtime` raises `OSError` is skipped. -/
def candidatesAt (st : DirObs) (dir : String) (init : List String) :
    List (String × Nat) :=
  (newCompletedAt st init).filterMap
    (fun f => (st.mtime (joinPath dir f)).map (fun m => (joinPath dir f, m)))

/-- Source `utils.py:98-99` — `sort(key=mtime, reverse=True)` then `[0]`: the
leftmost pair with the largest modification time (Python's sort is stable,
so ties keep the original iteration order). -/
def pickTopCandidate : List (String × Nat) → Option (String × Nat)
  | [] => none
  | c :: rest =>
    match pickTopCandidate rest with
    | none => some c
    | some best => if best.2 > c.2 then some best else some c

/-- Source `utils.py:103-132` — the bounded stability check on the chosen candidate.
`sz t` is `os.path.getsize` at tick `t` (`none` = `OSError`); `rem` is the
remaining tick budget (started at 25), `stable` is `stable_size_checks`, and
`last` is `last_known_size` (`none` models the initial `-1`, which no real
size equals).  Returns whether the candidate was declared complete, together
with the tick at which the `for` loop returned or exhausted its budget. -/
def stabilityLoop (sz : Nat → Option Nat) :
    Nat → Nat → Nat → Option Nat → Bool × Nat
  | t, 0, _, _ => (false, t)
  | t, rem + 1, stable, last =>
    match sz t with
    | some s =>
      if 0 < s ∧ last = some s then
        if 5 ≤ stable + 1 then (true, t)
        else stabilityLoop sz (t + 1) rem (stable + 1) last
      else
        stabilityLoop sz (t + 1) rem (if 0 < s then 1 else 0) (some s)
    | none => stabilityLoop sz (t + 1) rem 0 last

/-- Source `utils.py:62-143` — the outer polling loop of
`wait_for_download_completion`.  `e` is the elapsed whole seconds since
`timeout_start` (= `t0`); the `while` guard is `e < timeout`.  An empty
`new_completed_files` scan sleeps 2 s, a scan whose every candidate lost its
mtime probe sleeps 1 s and re-enters the loop, and a selected candidate goes
to the stability check, whose outcome is returned directly (the loop is never
re-entered after a candidate was selected).  `fuel` bounds the number of loop
iterations; every iteration advances `e` by at least 1, so `fuel = timeout`
makes the fuel-exhaustion branch coincide with the `while` guard failing, and
the function below is exact for the source.  The second component of the
result is the tick at which the Python function returns. -/
def pollGo (env : Env) (dir : String) (init : List String)
    (timeout t0 : Nat) : Nat → Nat → Option String × Nat
  | 0, e => (none, t0 + e)
  | fuel + 1, e =>
    if e < timeout then
      let st := env (t0 + e)
      let newCompleted := newCompletedAt st init
      if newCompleted.isEmpty then
        pollGo env dir init timeout t0 fuel (e + 2)
      else
        match pickTopCandidate (candidatesAt st dir init) with
        | none => pollGo env dir init timeout t0 fuel (e + 1)
        | some (path, _) =>
          let r := stabilityLoop (fun tt => (env tt).size path) (t0 + e) 25 0 none
          (if r.1 then some path else none, r.2)
    else (none, t0 + e)

/-- Source `utils.py:43-143` — `wait_for_download_completion(download_dir,
initial_files, timeout)` entered at absolute tick `t0`. -/
def wait_for_download_completion (env : Env) (dir : String)
    (init : List String) (timeout t0 : Nat) : Option String × Nat :=
  pollGo env dir init timeout t0 timeout 0

/-! ### Filename sanitizer (`utils.py:16-21`) -/

/-- ASCII model of the regex class `\w` (Python 3 also matches non-ASCII
word characters; every constant relevant to the claims is ASCII). -/
def isPyWordChar (c : Char) : Bool := c.isAlphanum || c == '_'

/-- ASCII model of the regex class `\s` / `str.strip()` whitespace. -/
def isPySpace (c : Char) : Bool :=
  c == ' ' || c == '\t' || c == '\n' || c == '\x0d' || c == '\x0b' || c == '\x0c'

/-- A character kept by `re.sub(r'[^\w\s.-]', '', name)`. -/
def keepChar (c : Char) : Bool :=
  isPyWordChar c || isPySpace c || c == '.' || c == '-'

/-- Model of `str.strip(chars)`: drop from both ends while the predicate holds. -/
def stripWhile (p : Char → Bool) (l : List Char) : List Char :=
  ((l.dropWhile p).reverse.dropWhile p).reverse

/-- Model of `re.sub(r'\s+', '_', s)`: every maximal run of whitespace becomes one
underscore. -/
def collapseWs : List Char → List Char
  | [] => []
  | [c] => if isPySpace c then ['_'] else [c]
  | c1 :: c2 :: rest =>
    if isPySpace c1 && isPySpace c2 then collapseWs (c2 :: rest)
    else (if isPySpace c1 then '_' else c1) :: collapseWs (c2 :: rest)

/-- Source `utils.py:16-21` — `sanitize_filename(name)`: drop every character that
is not word/whitespace/`.`/`-`, strip outer whitespace, collapse whitespace
runs into `_`, strip outer `_`/`-`, truncate to 100 characters. -/
def sanitize_filename (name : String) : String :=
  let s1 := name.data.filter keepChar
  let s2 := stripWhile isPySpace s1
  let s3 := collapseWs s2
  let s4 := stripWhile (fun c => c == '_' || c == '-') s3
  String.mk (s4.take 100)

/-! ### Collision-probing path allocation (`utils.py:170-176`) -/

/-- Source `utils.py:174-176` — the `while os.path.exists(initial_file_path)` probe
loop of `download_image`.  `ex` is the `os.path.exists` oracle applied to the
literal path string the code passes (Python resolves a relative string
against the process working directory).  Faithful to the source, the rebound
probe path is `f_base_counter_ext` WITHOUT `os.path.join(destination_folder, ...)`:
the destination directory component is dropped on the first collision.
`fuel` bounds the probe count (the Python loop terminates because only
finitely many paths exist). -/
def allocLoop (ex : String → Bool) (base ext : String) :
    Nat → String → Nat → String
  | _, path, 0 => path
  | counter, path, fuel + 1 =>
    if ex path then
      allocLoop ex base ext (counter + 1)
        (base ++ "_" ++ toString counter ++ ext) fuel
    else path

/-- Source `utils.py:170-176` — the collision-avoiding allocation of the temp file
path inside `download_image`: start from
`os.path.join(destination_folder, base ++ ext)` with `counter_temp = 1`,
then probe. -/
def allocate_temp_path (ex : String → Bool)
    (destination_folder base ext : String) (fuel : Nat) : String :=
  allocLoop ex base ext 1 (joinPath destination_folder (base ++ ext)) fuel

/-! ### Step 4 move-and-rewrite (`main.py:218-250`) -/

/-- Source `main.py:229-237` — one source directory's pass of the Step-4 move loop:
for each entry of the source listing in order, `shutil.move` it into the
final destination; a raised `shutil.Error` is caught, logged and the loop
continues with the remaining entries.  `moveOk` is the success oracle.
Returns (entries that arrived in the destination, entries left behind in the
source), both in listing order. -/
def moveItems (moveOk : String → Bool) : List String → List String × List String
  | [] => ([], [])
  | f :: rest =>
    let r := moveItems moveOk rest
    if moveOk f then (f :: r.1, r.2) else (r.1, f :: r.2)

/-- Model of `os.path.basename` for POSIX paths: the part after the last `/`. -/
def basename (p : String) : String :=
  String.mk ((p.data.reverse.takeWhile (fun c => c != '/')).reverse)

/-- Source `main.py:240-250` — the unconditional rewrite of a record path list:
every recorded path `p` becomes
`os.path.join(final_destination, os.path.basename(p))`, with no check of
whether the corresponding move succeeded. -/
def rewritePaths (finalDest : String) (paths : List String) : List String :=
  paths.map (fun p => joinPath finalDest (basename p))

/-- The Step-4 move-and-rewrite for one (source listing, final destination,
record path list) triple, as `main.py` performs it for the files directory
(and symmetrically for the images directory): the move pass over the source
listing, and the rewrite of the record's path list.  Result:
((moved entries, entries left in source), updated record path list). -/
def relocateStep (moveOk : String → Bool) (srcListing : List String)
    (finalDest : String) (recPaths : List String) :
    (List String × List String) × List String :=
  (moveItems moveOk srcListing, rewritePaths finalDest recPaths)

/-! ### Helper lemmas about the detector -/

/-- Membership in one scan's `new_completed_files` list. -/
theorem mem_newCompletedAt {st : DirObs} {init : List String} {f : String} :
    f ∈ newCompletedAt st init ↔
      f ∈ effListing st ∧ f ∉ init ∧ hasInProgressSuffix f = false := by
  simp only [newCompletedAt, List.mem_filter, Bool.not_eq_true',
    decide_eq_false_iff_not, and_assoc]

/-- Once the `while` guard fails, the loop returns `None` at the current
tick, whatever fuel remains. -/
theorem pollGo_exit (env : Env) (dir : String) (init : List String)
    (timeout t0 fuel e : Nat) (h : timeout ≤ e) :
    pollGo env dir init timeout t0 fuel e = (none, t0 + e) := by
  cases fuel with
  | zero => simp [pollGo]
  | succ n => simp [pollGo, Nat.not_lt.mpr h]

/-- If every scan's `new_completed_files` list is empty, the loop keeps
sleeping 2 s and times out: it returns `None` at the first even-offset tick
at or past the timeout. -/
theorem pollGo_none_of_empty (env : Env) (dir : String) (init : List String)
    (timeout t0 : Nat)
    (hemp : ∀ t, newCompletedAt (env t) init = []) :
    ∀ fuel e, e < timeout → timeout ≤ e + 2 * fuel →
      ∃ e', timeout ≤ e' ∧ e' ≤ timeout + 1 ∧
        pollGo env dir init timeout t0 fuel e = (none, t0 + e') := by
  intro fuel
  induction fuel with
  | zero => intro e he hb; omega
  | succ n ih =>
    intro e he hb
    have hstep : pollGo env dir init timeout t0 (n + 1) e =
        pollGo env dir init timeout t0 n (e + 2) := by
      simp [pollGo, he, hemp (t0 + e)]
    by_cases h2 : e + 2 < timeout
    · obtain ⟨e', h1, h2', h3⟩ := ih (e + 2) h2 (by omega)
      exact ⟨e', h1, h2', by rw [hstep]; exact h3⟩
    · refine ⟨e + 2, by omega, by omega, ?_⟩
      rw [hstep]
      exact pollGo_exit env dir init timeout t0 n (e + 2) (by omega)

/-- If every scan's `new_completed_files` list is empty, the whole call
returns `None` between `timeout` and `timeout + 1` seconds after entry. -/
theorem wait_none_of_empty (env : Env) (dir : String) (init : List String)
    (timeout t0 : Nat)
    (hemp : ∀ t, newCompletedAt (env t) init = []) :
    ∃ tEnd, wait_for_download_completion env dir init timeout t0 = (none, tEnd) ∧
      t0 + timeout ≤ tEnd ∧ tEnd ≤ t0 + timeout + 2 := by
  unfold wait_for_download_completion
  rcases Nat.eq_zero_or_pos timeout with h0 | hpos
  · subst h0
    exact ⟨t0 + 0, pollGo_exit env dir init 0 t0 0 0 (Nat.le_refl 0), by omega⟩
  · obtain ⟨e', h1, h2, h3⟩ :=
      pollGo_none_of_empty env dir init timeout t0 hemp timeout 0 hpos (by omega)
    exact ⟨t0 + e', h3, by omega, by omega⟩

/-- The selected top candidate is one of the scanned candidates. -/
theorem pickTopCandidate_mem :
    ∀ {l : List (String × Nat)} {c}, pickTopCandidate l = some c → c ∈ l := by
  intro l
  induction l with
  | nil => intro c h; simp [pickTopCandidate] at h
  | cons a rest ih =>
    intro c h
    simp only [pickTopCandidate] at h
    cases hr : pickTopCandidate rest with
    | none =>
      rw [hr] at h
      have h' : some a = some c := h
      exact (Option.some_inj.mp h') ▸ List.mem_cons_self a rest
    | some best =>
      rw [hr] at h
      have h' : (if best.2 > a.2 then some best else some a) = some c := h
      by_cases hgt : best.2 > a.2
      · rw [if_pos hgt] at h'
        exact List.mem_cons_of_mem a (ih (hr.trans h'))
      · rw [if_neg hgt] at h'
        exact (Option.some_inj.mp h') ▸ List.mem_cons_self a rest

/-- A stability check that declares failure does so exactly when its tick
budget is exhausted: `rem` ticks after it started. -/
theorem stabilityLoop_false_time (sz : Nat → Option Nat) :
    ∀ rem t stable last tE,
      stabilityLoop sz t rem stable last = (false, tE) → tE = t + rem := by
  intro rem
  induction rem with
  | zero =>
    intro t stable last tE h
    simp only [stabilityLoop, Prod.mk.injEq] at h
    omega
  | succ n ih =>
    intro t stable last tE h
    simp only [stabilityLoop] at h
    split at h
    · split at h
      · split at h
        · simp at h
        · have := ih (t + 1) (stable + 1) last tE h; omega
      · have := ih (t + 1) _ (some _) tE h; omega
    · have := ih (t + 1) 0 last tE h; omega

/-- A successful stability check needs its counter to have grown from
`stable` to 5 at one tick per step: it cannot succeed earlier than
`4 - stable` ticks after it started. -/
theorem stabilityLoop_true_time (sz : Nat → Option Nat) :
    ∀ rem t stable last tEnd,
      stabilityLoop sz t rem stable last = (true, tEnd) → t + 4 ≤ tEnd + stable := by
  intro rem
  induction rem with
  | zero =>
    intro t stable last tEnd h
    simp only [stabilityLoop, Prod.mk.injEq] at h
    exact absurd h.1 (by simp)
  | succ n ih =>
    intro t stable last tEnd h
    simp only [stabilityLoop] at h
    split at h
    next s hs =>
      split at h
      next hcond =>
        split at h
        next h5 =>
          simp only [Prod.mk.injEq] at h
          omega
        next h5 =>
          have := ih (t + 1) (stable + 1) last tEnd h; omega
      next hcond =>
        by_cases hpos : 0 < s
        · rw [if_pos hpos] at h
          have := ih (t + 1) 1 (some s) tEnd h; omega
        · rw [if_neg hpos] at h
          have := ih (t + 1) 0 (some s) tEnd h; omega
    next hs =>
      have := ih (t + 1) 0 last tEnd h; omega

/-- When the stability check succeeds at tick `tEnd`, the candidate's size
probe returned one and the same positive value at the five consecutive ticks
`tEnd - 4, …, tEnd`: the counter value 5 stands for five equal non-zero
readings, the reading at which the size was last set included. -/
theorem stabilityLoop_true_readings (sz : Nat → Option Nat) :
    ∀ rem t stable last tEnd,
      (0 < stable →
        ∃ s, last = some s ∧ 0 < s ∧ ∀ i < stable, sz (t - 1 - i) = some s) →
      stabilityLoop sz t rem stable last = (true, tEnd) →
      ∃ s, 0 < s ∧ ∀ i ≤ 4, sz (tEnd - i) = some s := by
  intro rem
  induction rem with
  | zero =>
    intro t stable last tEnd _ h
    simp only [stabilityLoop, Prod.mk.injEq] at h
    exact absurd h.1 (by simp)
  | succ n ih =>
    intro t stable last tEnd hinv h
    simp only [stabilityLoop] at h
    split at h
    next s hs =>
      split at h
      next hcond =>
        split at h
        next h5 =>
          simp only [Prod.mk.injEq, true_and] at h
          obtain ⟨s', hlast, _, hprev⟩ := hinv (by omega)
          have hss : s' = s := by
            rw [hcond.2] at hlast; exact (Option.some_inj.mp hlast).symm
          subst hss
          refine ⟨s', hcond.1, ?_⟩
          intro i hi
          cases i with
          | zero => rw [← h]; simpa using hs
          | succ j =>
            have hj : sz (t - 1 - j) = some s' := hprev j (by omega)
            rw [← h]
            have : t - (j + 1) = t - 1 - j := by omega
            rw [this]; exact hj
        next h5 =>
          refine ih (t + 1) (stable + 1) last tEnd ?_ h
          intro _
          refine ⟨s, hcond.2, hcond.1, ?_⟩
          intro i hi
          cases i with
          | zero => simpa using hs
          | succ j =>
            obtain ⟨s', hlast, _, hprev⟩ := hinv (by omega)
            have hss : s' = s := by
              rw [hcond.2] at hlast; exact (Option.some_inj.mp hlast).symm
            have hj : sz (t - 1 - j) = some s' := hprev j (by omega)
            have heq : t + 1 - 1 - (j + 1) = t - 1 - j := by omega
            rw [heq, hj, hss]
      next hcond =>
        refine ih (t + 1) (if 0 < s then 1 else 0) (some s) tEnd ?_ h
        intro hst
        by_cases hpos : 0 < s
        · refine ⟨s, rfl, hpos, ?_⟩
          intro i hi
          rw [if_pos hpos] at hi
          have : i = 0 := by omega
          subst this
          simpa using hs
        · rw [if_neg hpos] at hst; omega
    next hs =>
      refine ih (t + 1) 0 last tEnd ?_ h
      intro h0
      exact absurd h0 (by omega)

/-- Any path the polling loop returns is the join of the download directory
with a listing entry seen at a scan tick of the call itself — between the
current poll tick and the return tick — new w.r.t. the baseline and free
of in-progress suffixes. -/
theorem pollGo_success (env : Env) (dir : String) (init : List String)
    (timeout t0 : Nat) :
    ∀ fuel e p tEnd,
      pollGo env dir init timeout t0 fuel e = (some p, tEnd) →
      ∃ f t, t0 + e ≤ t ∧ t ≤ tEnd ∧ f ∈ effListing (env t) ∧ f ∉ init ∧
        hasInProgressSuffix f = false ∧ p = joinPath dir f := by
  intro fuel
  induction fuel with
  | zero => intro e p tEnd h; simp [pollGo] at h
  | succ n ih =>
    intro e p tEnd h
    simp only [pollGo] at h
    split at h
    · split at h
      · obtain ⟨f, t, ht1, ht2, h1, h2, h3, h4⟩ := ih (e + 2) p tEnd h
        exact ⟨f, t, by omega, ht2, h1, h2, h3, h4⟩
      · split at h
        · obtain ⟨f, t, ht1, ht2, h1, h2, h3, h4⟩ := ih (e + 1) p tEnd h
          exact ⟨f, t, by omega, ht2, h1, h2, h3, h4⟩
        next path m hpick =>
          have hmem := pickTopCandidate_mem hpick
          obtain ⟨f, hf, hsome⟩ := List.mem_filterMap.mp hmem
          have hpath : path = joinPath dir f := by
            cases hmt : (env (t0 + e)).mtime (joinPath dir f) with
            | none => rw [hmt] at hsome; simp at hsome
            | some mv =>
              rw [hmt] at hsome
              simp only [Option.map_some', Option.some_inj, Prod.mk.injEq] at hsome
              exact hsome.1.symm
          obtain ⟨h1, h2, h3⟩ := mem_newCompletedAt.mp hf
          cases hsl : stabilityLoop (fun tt => (env tt).size path) (t0 + e) 25 0 none with
          | mk b tE =>
            rw [hsl] at h
            cases b with
            | false => simp at h
            | true =>
              simp only [if_true, Prod.mk.injEq, Option.some_inj] at h
              obtain ⟨hp, htE⟩ := h
              have hle : t0 + e ≤ tEnd := by
                have := stabilityLoop_true_time _ 25 (t0 + e) 0 none tE hsl
                omega
              exact ⟨f, t0 + e, Nat.le_refl _, hle, h1, h2, h3, hp.symm.trans hpath⟩
    · simp at h

/-- Any successful poll returns at a tick `tEnd` such that the returned
path's size probe gave one positive value at all five ticks
`tEnd - 4, …, tEnd`, and `tEnd` is at least 4 ticks after entry. -/
theorem pollGo_success_readings (env : Env) (dir : String) (init : List String)
    (timeout t0 : Nat) :
    ∀ fuel e p tEnd,
      pollGo env dir init timeout t0 fuel e = (some p, tEnd) →
      (∃ s, 0 < s ∧ ∀ i ≤ 4, (env (tEnd - i)).size p = some s) ∧
        t0 + 4 ≤ tEnd := by
  intro fuel
  induction fuel with
  | zero => intro e p tEnd h; simp [pollGo] at h
  | succ n ih =>
    intro e p tEnd h
    simp only [pollGo] at h
    split at h
    · split at h
      · exact ih (e + 2) p tEnd h
      · split at h
        · exact ih (e + 1) p tEnd h
        next path m hpick =>
          cases hsl : stabilityLoop (fun tt => (env tt).size path) (t0 + e) 25 0 none with
          | mk b tE =>
            rw [hsl] at h
            cases b with
            | false => simp at h
            | true =>
              simp only [if_true, Prod.mk.injEq, Option.some_inj] at h
              obtain ⟨hp, htE⟩ := h
              subst hp; subst htE
              constructor
              · exact stabilityLoop_true_readings _ 25 (t0 + e) 0 none tE
                  (fun h0 => absurd h0 (by omega)) hsl
              · have := stabilityLoop_true_time _ 25 (t0 + e) 0 none tE hsl
                omega
    · simp at h

/-! ### Concrete environments used by witnesses and counterexamples -/

/-- A directory whose only entry is forever an in-progress `.crdownload`. -/
def envC1w : Env := fun _ =>
  { dirExists := true, listing := ["x.crdownload"], mtime := fun _ => some 1,
    size := fun _ => some 5 }

/-- A new file whose size reads 50 at tick 0 and 100 from tick 1 on. -/
def envC2cx : Env := fun t =>
  { dirExists := true, listing := ["model.zip"], mtime := fun _ => some 7,
    size := fun p =>
      if p = "dl/model.zip" then (if t = 0 then some 50 else some 100)
      else none }

/-- A new file of constant positive size. -/
def envC2w : Env := fun _ =>
  { dirExists := true, listing := ["m.zip"], mtime := fun _ => some 3,
    size := fun p => if p = "dl/m.zip" then some 100 else none }

/-- A completed new file next to an in-progress `.crdownload` entry. -/
def envC3w : Env := fun _ =>
  { dirExists := true, listing := ["a.zip", "b.crdownload"],
    mtime := fun _ => some 5, size := fun _ => some 7 }

/-- A new file whose size probe is forever 0: never a stable positive size. -/
def envC7w : Env := fun _ =>
  { dirExists := true, listing := ["b.zip"], mtime := fun _ => some 2,
    size := fun _ => some 0 }

/-- A download directory that never exists. -/
def envC9w : Env := fun _ =>
  { dirExists := false, listing := ["stale.zip"], mtime := fun _ => some 1,
    size := fun _ => some 9 }

/-- A single completed new file, for the C10 witness. -/
def envC10w : Env := fun _ =>
  { dirExists := true, listing := ["part7.gcode"], mtime := fun _ => some 4,
    size := fun _ => some 42 }

/-! ### Claim theorems about the detector -/

/-- C1: for every directory and baseline, if no new file lacking a
recognized partial-download suffix ever appears, the call returns `None`
(the embedding is a total function into `Option`, so no exception), no
earlier than the timeout and no later than the timeout plus one 2-second
poll interval. -/
theorem claim_C1_no_new_completed_file_times_out
    (env : Env) (dir : String) (init : List String) (timeout t0 : Nat)
    (hyp : ∀ t f, f ∈ effListing (env t) → f ∉ init →
      hasInProgressSuffix f = true) :
    ∃ tEnd, wait_for_download_completion env dir init timeout t0 = (none, tEnd) ∧
      t0 + timeout ≤ tEnd ∧ tEnd ≤ t0 + timeout + 2 := by
  apply wait_none_of_empty
  intro t
  apply List.filter_eq_nil_iff.mpr
  intro f hf
  obtain ⟨h1, h2⟩ := List.mem_filter.mp hf
  have h2' : f ∉ init := by simpa using h2
  simp [hyp t f h1 h2']

/-- Witness for C1: a directory forever holding only `x.crdownload`. -/
theorem claim_C1_witness :
    ∃ tEnd, wait_for_download_completion envC1w "d" [] 5 0 = (none, tEnd) ∧
      0 + 5 ≤ tEnd ∧ tEnd ≤ 0 + 5 + 2 :=
  claim_C1_no_new_completed_file_times_out envC1w "d" [] 5 0 (by
    intro t f hf _
    have : f = "x.crdownload" := by simpa [envC1w, effListing] using hf
    subst this
    decide)

/-- C9: if the polled directory never exists, every poll reads the empty
listing (`effListing` is `[]`), no exception is raised (the embedding is
total), and the call returns `None` once the timeout elapses. -/
theorem claim_C9_missing_directory_is_total
    (env : Env) (dir : String) (init : List String) (timeout t0 : Nat)
    (hyp : ∀ t, (env t).dirExists = false) :
    (∀ t, effListing (env t) = []) ∧
      ∃ tEnd, wait_for_download_completion env dir init timeout t0 = (none, tEnd) ∧
        t0 + timeout ≤ tEnd ∧ tEnd ≤ t0 + timeout + 2 := by
  have hl : ∀ t, effListing (env t) = [] := by
    intro t; simp [effListing, hyp t]
  refine ⟨hl, ?_⟩
  apply wait_none_of_empty
  intro t
  simp [newCompletedAt, hl t]

/-- Witness for C9: a never-existing directory (with a phantom listing that
is consequently never read). -/
theorem claim_C9_witness :
    (∀ t, effListing (envC9w t) = []) ∧
      ∃ tEnd, wait_for_download_completion envC9w "d" [] 4 0 = (none, tEnd) ∧
        0 + 4 ≤ tEnd ∧ tEnd ≤ 0 + 4 + 2 :=
  claim_C9_missing_directory_is_total envC9w "d" [] 4 0 (fun _ => rfl)

/-- C3: the call never returns a path whose filename component ends
(case-insensitively) in a recognized in-progress suffix: every returned
path is the join of the directory with a listing entry `f` for which the
suffix test was `false`. -/
theorem claim_C3_never_returns_in_progress_suffix
    (env : Env) (dir : String) (init : List String) (timeout t0 : Nat)
    (p : String) (tEnd : Nat)
    (h : wait_for_download_completion env dir init timeout t0 = (some p, tEnd)) :
    ∃ f, p = joinPath dir f ∧ hasInProgressSuffix f = false := by
  obtain ⟨f, t, _, _, _, _, h3, h4⟩ :=
    pollGo_success env dir init timeout t0 timeout 0 p tEnd h
  exact ⟨f, h4, h3⟩

/-- Witness for C3: a run that returns `a.zip` while `b.crdownload` sits in
the same directory. -/
theorem claim_C3_witness :
    ∃ f, "d/a.zip" = joinPath "d" f ∧ hasInProgressSuffix f = false :=
  claim_C3_never_returns_in_progress_suffix envC3w "d" [] 6 0 "d/a.zip" 4
    (by decide)

/-- C10: every non-`None` result equals the join of the download directory
with a filename that was present in a directory listing taken during the
call — at a tick `t` between the call's entry tick `t0` and its return tick
`tEnd` — and absent from the baseline. -/
theorem claim_C10_result_is_new_listing_entry
    (env : Env) (dir : String) (init : List String) (timeout t0 : Nat)
    (p : String) (tEnd : Nat)
    (h : wait_for_download_completion env dir init timeout t0 = (some p, tEnd)) :
    ∃ f t, t0 ≤ t ∧ t ≤ tEnd ∧ f ∈ effListing (env t) ∧ f ∉ init ∧
      p = joinPath dir f := by
  obtain ⟨f, t, ht1, ht2, h1, h2, _, h4⟩ :=
    pollGo_success env dir init timeout t0 timeout 0 p tEnd h
  exact ⟨f, t, by omega, ht2, h1, h2, h4⟩

/-- Witness for C10: a run entered at tick 0 returning the one new file
`part7.gcode` at tick 4, listed at a tick within the call. -/
theorem claim_C10_witness :
    ∃ f t, 0 ≤ t ∧ t ≤ 4 ∧ f ∈ effListing (envC10w t) ∧ f ∉ ["old.txt"] ∧
      "dl/part7.gcode" = joinPath "dl" f :=
  claim_C10_result_is_new_listing_entry envC10w "dl" ["old.txt"] 6 0
    "dl/part7.gcode" 4 (by decide)

/-- C2 counterexample: exactly one new file (`model.zip`) appears; its size
probe read 50 at tick 0 and then stopped changing (100 from tick 1 on).  The
call returns the file's path at tick 5 — 4 seconds after the size last
changed at tick 1, refuting the claimed lower bound of 5 seconds (the reading
at which the new size is first seen already counts as stable check 1 of 5). -/
theorem claim_C2_counterexample :
    wait_for_download_completion envC2cx "dl" [] 180 0 = (some "dl/model.zip", 5) ∧
      (envC2cx 0).size "dl/model.zip" = some 50 ∧
      (envC2cx 1).size "dl/model.zip" = some 100 ∧
      (envC2cx 2).size "dl/model.zip" = some 100 ∧
      (envC2cx 3).size "dl/model.zip" = some 100 ∧
      (envC2cx 4).size "dl/model.zip" = some 100 ∧
      (envC2cx 5).size "dl/model.zip" = some 100 ∧
      5 < 1 + 5 := by decide

/-- C2 (amended): a path is returned only at a tick `tEnd` such that the
candidate's size probe returned one positive value at the five consecutive
1-second ticks `tEnd - 4, …, tEnd` — the tick at which the size was last set
counts as the first of the five — so the call returns no earlier than 4
seconds after the size last changed, and no earlier than 4 seconds after the
call began. -/
theorem claim_C2_amended_stable_readings
    (env : Env) (dir : String) (init : List String) (timeout t0 : Nat)
    (p : String) (tEnd : Nat)
    (h : wait_for_download_completion env dir init timeout t0 = (some p, tEnd)) :
    (∃ s, 0 < s ∧ ∀ i ≤ 4, (env (tEnd - i)).size p = some s) ∧
      t0 + 4 ≤ tEnd :=
  pollGo_success_readings env dir init timeout t0 timeout 0 p tEnd h

/-- Witness for the amended C2: one new file of constant size 100 is
returned at tick 4. -/
theorem claim_C2_witness :
    (∃ s, 0 < s ∧ ∀ i ≤ 4, (envC2w (4 - i)).size "dl/m.zip" = some s) ∧
      0 + 4 ≤ 4 :=
  claim_C2_amended_stable_readings envC2w "dl" [] 6 0 "dl/m.zip" 4 (by decide)

/-- C7: once a candidate has been selected and the stability check entered,
exhausting the 25-tick budget without reaching the threshold makes the whole
invocation return `None` exactly 25 ticks after the scan, whatever the
directory later contains: the loop is never re-entered to scan for another
candidate. -/
theorem claim_C7_candidate_instability_is_terminal
    (env : Env) (dir : String) (init : List String) (timeout t0 : Nat)
    (fuel e : Nat) (path : String) (m tE : Nat)
    (he : e < timeout)
    (hpick : pickTopCandidate (candidatesAt (env (t0 + e)) dir init) =
      some (path, m))
    (hfail : stabilityLoop (fun tt => (env tt).size path) (t0 + e) 25 0 none =
      (false, tE)) :
    pollGo env dir init timeout t0 (fuel + 1) e = (none, tE) ∧
      tE = t0 + e + 25 := by
  have htime : tE = t0 + e + 25 :=
    stabilityLoop_false_time _ 25 (t0 + e) 0 none tE hfail
  have hcne : candidatesAt (env (t0 + e)) dir init ≠ [] := by
    intro hnil
    rw [hnil] at hpick
    simp [pickTopCandidate] at hpick
  have hne : (newCompletedAt (env (t0 + e)) init).isEmpty = false := by
    cases hl : newCompletedAt (env (t0 + e)) init with
    | nil => exact absurd (by simp [candidatesAt, hl]) hcne
    | cons a l => rfl
  refine ⟨?_, htime⟩
  simp only [pollGo, if_pos he, hne, Bool.false_eq_true, if_false]
  rw [hpick]
  show (if (stabilityLoop (fun tt => (env tt).size path) (t0 + e) 25 0 none).1 = true
      then some path else none,
    (stabilityLoop (fun tt => (env tt).size path) (t0 + e) 25 0 none).2) = (none, tE)
  rw [hfail]
  simp

/-- Witness for C7: the sole candidate's size probe is forever 0, so the
stability threshold is never reached and the call returns `None` at tick
25 although the timeout was only 9 seconds away. -/
theorem claim_C7_witness :
    pollGo envC7w "d" [] 9 0 9 0 = (none, 25) ∧ (25 : Nat) = 0 + 0 + 25 :=
  claim_C7_candidate_instability_is_terminal envC7w "d" [] 9 0 8 0
    "d/b.zip" 2 25 (by decide) (by decide) (by decide)

/-! ### Sanitizer character lemmas -/

/-- Two-sided stripping only removes characters. -/
theorem mem_stripWhile {p : Char → Bool} {l : List Char} {c : Char}
    (h : c ∈ stripWhile p l) : c ∈ l := by
  unfold stripWhile at h
  rw [List.mem_reverse] at h
  have h1 := (List.dropWhile_sublist p).mem h
  rw [List.mem_reverse] at h1
  exact (List.dropWhile_sublist p).mem h1

/-- Collapsing whitespace runs only introduces underscores. -/
theorem mem_collapseWs {c : Char} :
    ∀ {l : List Char}, c ∈ collapseWs l → c = '_' ∨ c ∈ l := by
  intro l
  induction l with
  | nil => intro h; simp [collapseWs] at h
  | cons a tail ih =>
    cases tail with
    | nil =>
      intro h
      simp only [collapseWs] at h
      by_cases hsp : isPySpace a
      · rw [if_pos hsp] at h; simp at h; exact Or.inl h
      · rw [if_neg hsp] at h; simp at h; subst h; exact Or.inr (by simp)
    | cons b rest =>
      intro h
      simp only [collapseWs] at h
      by_cases hab : (isPySpace a && isPySpace b) = true
      · rw [if_pos hab] at h
        rcases ih h with h' | h'
        · exact Or.inl h'
        · exact Or.inr (List.mem_cons_of_mem a h')
      · rw [if_neg hab] at h
        rcases List.mem_cons.mp h with h' | h'
        · by_cases hsa : isPySpace a
          · rw [if_pos hsa] at h'; exact Or.inl h'
          · rw [if_neg hsa] at h'; exact Or.inr (h' ▸ List.mem_cons_self a (b :: rest))
        · rcases ih h' with h'' | h''
          · exact Or.inl h''
          · exact Or.inr (List.mem_cons_of_mem a h'')

/-- Every character of a sanitized name either survived the keep-filter or
is an underscore introduced for a whitespace run. -/
theorem sanitize_filename_chars (name : String) (c : Char)
    (hc : c ∈ (sanitize_filename name).data) : keepChar c = true ∨ c = '_' := by
  have hc4 : c ∈ stripWhile (fun c => c == '_' || c == '-')
      (collapseWs (stripWhile isPySpace (name.data.filter keepChar))) :=
    List.take_subset 100 _ hc
  have hc3 := mem_stripWhile hc4
  rcases mem_collapseWs hc3 with h | h
  · exact Or.inr h
  · exact Or.inl (List.mem_filter.mp (mem_stripWhile h)).2

/-! ### Claims about the sanitizer, the allocator and the reconciler -/

/-- C6 counterexample: the sanitizer does not reject the path-traversal
segment `..` — both dots survive every stage and the input is returned
unchanged. -/
theorem claim_C6_counterexample : sanitize_filename ".." = ".." := by decide

/-- C6 (amended): the output of `sanitize_filename` never contains a path
separator character (`/` or `\`); the `..` segment, however, is not
rejected. -/
theorem claim_C6_amended_no_path_separator (name : String) (c : Char)
    (hc : c ∈ (sanitize_filename name).data) : c ≠ '/' ∧ c ≠ '\\' := by
  rcases sanitize_filename_chars name c hc with h | h
  · refine ⟨?_, ?_⟩ <;> rintro rfl <;> exact absurd h (by decide)
  · subst h; exact ⟨by decide, by decide⟩

/-- Witness for the amended C6: the `a` in `sanitize_filename "a/b"`. -/
theorem claim_C6_witness :
    'a' ∈ (sanitize_filename "a/b").data ∧ ('a' ≠ '/' ∧ 'a' ≠ '\\') :=
  ⟨by decide, claim_C6_amended_no_path_separator "a/b" 'a' (by decide)⟩

/-- The `os.path.exists` oracle of the C5 failing input: the destination
directory `d` already holds `photo.jpg` and `photo_1.jpg`; the process
working directory holds neither bare name. -/
def exC5 : String → Bool := fun p => p == "d/photo.jpg" || p == "d/photo_1.jpg"

/-- C5 (code bug, utils.py:175): probing for a free name for base `photo`
and extension `.jpg` against directory `d` containing `photo.jpg` and
`photo_1.jpg` does NOT return `d/photo_2.jpg`: on the first collision the
rebound path drops the directory component, the existence check runs against
the bare relative name `photo_1.jpg` (i.e. the process working directory),
and the loop exits with `photo_1.jpg` — a path outside the target
directory, and one that collides with `d/photo_1.jpg` once the file is
written relative to `d`'s intended location. -/
theorem claim_C5_allocation_drops_directory :
    allocate_temp_path exC5 "d" "photo" ".jpg" 10 = "photo_1.jpg" ∧
      "photo_1.jpg" ≠ joinPath "d" "photo_2.jpg" := by decide

/-- C4 counterexample: source `[a.stl, b.stl]`, moving `b.stl` fails; the
move pass leaves `a.stl` delivered and `b.stl` behind, but the record's
updated path list contains the final paths of BOTH files, not only `a`'s. -/
theorem claim_C4_counterexample :
    relocateStep (fun f => f == "a.stl") ["a.stl", "b.stl"] "out/files"
        ["tmp/files/a.stl", "tmp/files/b.stl"] =
      ((["a.stl"], ["b.stl"]), ["out/files/a.stl", "out/files/b.stl"]) ∧
      ["out/files/a.stl", "out/files/b.stl"] ≠ ["out/files/a.stl"] := by decide

/-- C4 (amended): when moving `a` succeeds and moving `b` fails, the
relocation continues past the failure, `a` arrives in the destination and
`b` stays behind, and the record's path list is rewritten unconditionally:
it contains the final-destination paths of both `a` and `b`, the failed move
included. -/
theorem claim_C4_amended_partial_move
    (moveOk : String → Bool) (a b finalDest pa pb : String)
    (ha : moveOk a = true) (hb : moveOk b = false) :
    relocateStep moveOk [a, b] finalDest [pa, pb] =
      (([a], [b]),
        [joinPath finalDest (basename pa), joinPath finalDest (basename pb)]) := by
  simp [relocateStep, moveItems, rewritePaths, ha, hb]

/-- Witness for the amended C4. -/
theorem claim_C4_witness :
    relocateStep (fun f => f == "ok.gcode") ["ok.gcode", "bad.gcode"] "fin"
        ["t/ok.gcode", "t/bad.gcode"] =
      ((["ok.gcode"], ["bad.gcode"]), ["fin/ok.gcode", "fin/bad.gcode"]) :=
  claim_C4_amended_partial_move (fun f => f == "ok.gcode") "ok.gcode"
    "bad.gcode" "fin" "t/ok.gcode" "t/bad.gcode" (by decide) (by decide)

/-- C8 counterexample: with an empty source directory nothing is moved, yet
the record is NOT returned unchanged: its recorded temporary path is still
rewritten to the final destination. -/
theorem claim_C8_counterexample :
    relocateStep (fun _ => true) [] "out/files" ["tmp/files/a.stl"] =
      (([], []), ["out/files/a.stl"]) ∧
      ["out/files/a.stl"] ≠ ["tmp/files/a.stl"] := by decide

/-- The unconditional rewrite fixes exactly the lists whose every entry
already has its final-destination form. -/
theorem rewritePaths_fixed (finalDest : String) :
    ∀ recPaths : List String,
      (∀ p ∈ recPaths, joinPath finalDest (basename p) = p) →
      rewritePaths finalDest recPaths = recPaths := by
  intro l
  induction l with
  | nil => intro _; rfl
  | cons p rest ih =>
    intro h
    simp only [rewritePaths, List.map_cons]
    rw [h p (List.mem_cons_self p rest)]
    have := ih (fun q hq => h q (List.mem_cons_of_mem p hq))
    simp only [rewritePaths] at this
    rw [this]

/-- C8 (amended): the Step-4 move-and-rewrite on an already-empty source
directory moves nothing and leaves the destination unchanged; the record's
path lists are still rewritten to `finalDest/basename(p)`, so the record
comes back unchanged exactly when each recorded path already has that form
— in particular when the path lists are empty. -/
theorem claim_C8_amended_empty_source
    (moveOk : String → Bool) (finalDest : String) (recPaths : List String)
    (hfix : ∀ p ∈ recPaths, joinPath finalDest (basename p) = p) :
    relocateStep moveOk [] finalDest recPaths = (([], []), recPaths) := by
  unfold relocateStep
  rw [rewritePaths_fixed finalDest recPaths hfix]
  rfl

/-- Witness for the amended C8: a record whose single path already points
into the final destination. -/
theorem claim_C8_witness :
    relocateStep (fun _ => false) [] "x" ["x/a"] = (([], []), ["x/a"]) :=
  claim_C8_amended_empty_source (fun _ => false) "x" ["x/a"] (by decide)

end PrintablesScraper
